import Mathlib

/-!
Verification of the GEG launcher's mod-content resolution, caching and
synchronization engine, shallowly embedded from the Rust sources
(`src-tauri/src/minecraft/downloads/mod_downloader.rs`,
`src-tauri/src/minecraft/downloads/norisk_pack_downloader.rs`,
`src-tauri/src/integrations/curseforge.rs`,
`src-tauri/src/integrations/unified_mod.rs`).

String handling note: Rust compares and slices `String`s byte-wise; for valid
UTF-8, byte-lexicographic order coincides with codepoint-lexicographic order,
so the embedding works on `String.data` (the list of chars) with explicit,
structurally recursive operations.  Machine integers (`u32`/`u64`) stay far
from overflow in every modelled computation, so they are represented by `Nat`;
`saturating_sub` is `Nat` subtraction.
-/

namespace GegLauncher

/-! ### String primitives (char-list based, mirroring Rust byte semantics) -/

/-- Lexicographic strict order on char lists by codepoint, as Rust's `Ord` for
`String` (byte order equals codepoint order for valid UTF-8). -/
def charListLt : List Char → List Char → Bool
  | _, [] => false
  | [], _ :: _ => true
  | a :: as, b :: bs =>
    if a.toNat < b.toNat then true
    else if b.toNat < a.toNat then false
    else charListLt as bs

/-- Rust `String` `<` comparison. -/
def strLtB (a b : String) : Bool := charListLt a.data b.data

/-- Test that `needle` is a prefix of `hay` (Rust `str::starts_with`). -/
def listPrefixOf : List Char → List Char → Bool
  | [], _ => true
  | _ :: _, [] => false
  | a :: as, b :: bs => a == b && listPrefixOf as bs

/-- Test that `needle` occurs as a contiguous run in `hay` (Rust `str::contains`). -/
def listInfixOf (needle : List Char) : List Char → Bool
  | [] => needle.isEmpty
  | c :: rest => listPrefixOf needle (c :: rest) || listInfixOf needle rest

/-- Rust `str::contains` for a string pattern. -/
def strContainsB (hay needle : String) : Bool := listInfixOf needle.data hay.data

/-- Rust `str::starts_with` for a string pattern. -/
def strStartsWithB (s pfx : String) : Bool := listPrefixOf pfx.data s.data

/-- ASCII lower-casing per char; the loader tokens compared by the code are
ASCII, where Rust `to_lowercase` agrees with this. -/
def charToLowerAscii (c : Char) : Char :=
  if 65 ≤ c.toNat ∧ c.toNat ≤ 90 then Char.ofNat (c.toNat + 32) else c

/-- Rust `str::to_lowercase` restricted to ASCII letters. -/
def strToLowerB (s : String) : String := String.mk (s.data.map charToLowerAscii)

/-- Split a char list on a separator char (Rust `str::split` /
`Path::components` chunking on `'/'`). -/
def splitOnCharList (sep : Char) : List Char → List (List Char)
  | [] => [[]]
  | c :: rest =>
    let r := splitOnCharList sep rest
    if c == sep then [] :: r
    else
      match r with
      | [] => [[c]]
      | g :: gs => (c :: g) :: gs

/-- Rust `str::replace('.', "/")` (char pattern, per-char substitution). -/
def strReplaceCharB (s : String) (from_ to_ : Char) : String :=
  String.mk (s.data.map fun c => if c == from_ then to_ else c)

/-- Rust `str::trim_end_matches('/')`. -/
def strTrimEndSlashes (s : String) : String :=
  String.mk (s.data.reverse.dropWhile (· == '/')).reverse

/-- Association-list lookup, modelling `HashMap::get`. -/
def lookupAssoc {α : Type} (m : List (String × α)) (k : String) : Option α :=
  (m.find? fun p => p.1 == k).map (·.2)

/-! ### §4.6 Memory settings — `determine_memory_settings`
(`integrations/curseforge.rs`) -/

structure MemorySettings where
  min : Nat
  max : Nat
  deriving DecidableEq, Repr

/-- The function `determine_memory_settings(recommended_ram_mb)` with the detected system
RAM (`get_system_ram_mb()`) passed explicitly.  `u64` arithmetic;
`saturating_sub` is `Nat` subtraction. -/
def determine_memory_settings (recommended_ram_mb : Option Nat)
    (system_ram_mb : Nat) : MemorySettings :=
  match recommended_ram_mb with
  | some recommended =>
    let available_ram_mb := system_ram_mb - 2048
    if recommended > available_ram_mb then
      let ram_amount := Nat.max (Nat.min available_ram_mb 16384) 1024
      { min := ram_amount, max := ram_amount }
    else
      let ram_amount :=
        Nat.max (Nat.min (Nat.min recommended available_ram_mb) 16384) 1024
      { min := ram_amount, max := ram_amount }
  | none =>
    let ram_amount := Nat.max (Nat.min (system_ram_mb / 2) 4096) 3048
    { min := ram_amount, max := ram_amount }

/-! ### §4.4 cache download dispatch — `ModDownloadService::download_mods_to_cache`
(`minecraft/downloads/mod_downloader.rs`) -/

/-- The enum `ModSource` from `state/profile_state.rs`.
Modelled from the spec: the enum declaration itself is outside the provided
sources (only its `match` sites are); variants and fields follow the spec's
`ModSource` data model and the fields destructured at the match sites. -/
inductive ModSource where
  | Modrinth (project_id : String) (version_id : String) (file_name : String)
      (download_url : String) (file_hash_sha1 : Option String)
  | CurseForge (project_id : Nat) (file_id : Nat) (file_name : String)
      (download_url : String) (file_hash_sha1 : Option String)
      (file_fingerprint : Option Nat)
  | Url (url : String) (file_name : Option String)
  | Maven (repository_ref : String) (group_id : String) (artifact_id : String)
      (version : String)
  | Local (file_name : String)
  | Embedded (name : String)
  deriving DecidableEq, Repr

/-- What one cache task of `download_mods_to_cache` does for an enabled entry
once its cache filename resolved: either fetch a URL (optionally
SHA1-checked) into the cache, or skip the entry returning success. -/
inductive CacheDownloadAction where
  | fetch (url : String) (sha1 : Option String)
  | skip
  deriving DecidableEq, Repr

/-- The `match source_clone` dispatch inside
`ModDownloadService::download_mods_to_cache`: Modrinth sources are fetched via
their stored `download_url`; Url, Local, Maven ("not implemented") and
Embedded sources are skipped with `Ok(())`. -/
def cacheActionForSource : ModSource → CacheDownloadAction
  | ModSource.Modrinth _ _ _ download_url file_hash_sha1 =>
      CacheDownloadAction.fetch download_url file_hash_sha1
  | ModSource.Url _ _ => CacheDownloadAction.skip
  | ModSource.Maven _ _ _ _ => CacheDownloadAction.skip
  | ModSource.Local _ => CacheDownloadAction.skip
  | ModSource.Embedded _ => CacheDownloadAction.skip
  | ModSource.CurseForge _ _ _ _ _ _ => CacheDownloadAction.skip

/-! ### Norisk pack cache download — `NoriskPackDownloadService`
(`minecraft/downloads/norisk_pack_downloader.rs`) -/

/-- The enum `NoriskModSourceDefinition` from `integrations/norisk_packs.rs`.
Modelled from the spec: the enum declaration is outside the provided sources;
variants and fields follow the match site in `download_pack_mods_to_cache`. -/
inductive NoriskModSourceDefinition where
  | Modrinth (project_id : String) (project_slug : String)
  | Maven (repository_ref : String) (group_id : String) (artifact_id : String)
  | Url
  deriving DecidableEq, Repr

/-- The `MODRINTH_MAVEN_URL` constant. -/
def MODRINTH_MAVEN_URL : String := "https://api.modrinth.com/maven"

/-- URL composition of `NoriskPackDownloadService::download_maven_mod`:
`group_path = group_id.replace('.', "/")`,
`artifact_path = "{group_path}/{artifact_id}/{version}/{filename}"`,
`download_url = "{repo_url}/{artifact_path}"`. -/
def mavenDownloadUrl (repo_url group_id artifact_id version filename : String) :
    String :=
  let group_path := strReplaceCharB group_id '.' '/'
  repo_url ++ "/" ++ (group_path ++ "/" ++ artifact_id ++ "/" ++ version ++ "/"
    ++ filename)

/-- The `match effective_source` dispatch inside
`NoriskPackDownloadService::download_pack_mods_to_cache` (after the filename
was resolved): the resulting fetch, or an error for a Maven source whose
repository reference is unknown.  `identifier` is the compatibility target's
identifier, `repositories` the pack config's repository map. -/
def packCacheAction (repositories : List (String × String))
    (source : NoriskModSourceDefinition) (identifier filename : String) :
    Except String CacheDownloadAction :=
  match source with
  | NoriskModSourceDefinition.Modrinth _ project_slug =>
      Except.ok (CacheDownloadAction.fetch
        (mavenDownloadUrl MODRINTH_MAVEN_URL "maven.modrinth" project_slug
          identifier filename) none)
  | NoriskModSourceDefinition.Maven repository_ref group_id artifact_id =>
      match lookupAssoc repositories repository_ref with
      | none => Except.error repository_ref
      | some repo =>
          Except.ok (CacheDownloadAction.fetch
            (mavenDownloadUrl (strTrimEndSlashes repo) group_id artifact_id
              identifier filename) none)
  | NoriskModSourceDefinition.Url =>
      Except.ok (CacheDownloadAction.fetch identifier none)

/-! ### §5 batch result aggregation
(`download_mods_to_cache` / `download_pack_mods_to_cache`, identical tail:
`buffer_unordered(..).collect()` then first collected error) -/

/-- An abstract application error for batch modelling. -/
structure BatchErr where
  msg : String
  deriving DecidableEq, Repr

/-- The error-collection loop over the collected results of all tasks
(`for result in results { if let Err(e) = result { errors.push(e) } }`). -/
def collectBatchErrors (results : List (Except BatchErr Unit)) : List BatchErr :=
  results.foldl (fun errs r =>
    match r with
    | Except.error e => errs ++ [e]
    | Except.ok _ => errs) []

/-- The call's final result: `Ok(())` when no task failed, else the first
collected failure (`errors.remove(0)`). -/
def batchResult (results : List (Except BatchErr Unit)) : Except BatchErr Unit :=
  match collectBatchErrors results with
  | [] => Except.ok ()
  | e :: _ => Except.error e

/-! ### §4.2 modpack switch mod-list update — `switch_modpack_version`
(`integrations/unified_mod.rs`) -/

/-- The fields of `state/profile_state.rs`'s `Mod` used by
`switch_modpack_version`'s mod-list update (id, display name, the
modpack-origin marker), plus the source payload. -/
structure ProfileMod where
  id : Nat
  display_name : Option String
  modpack_origin : Option String
  source : ModSource
  enabled : Bool
  deriving DecidableEq, Repr

/-- The mod-list update of `switch_modpack_version`: build `updated_mods` by
keeping each existing entry with `modpack_origin.is_none()` (in order),
dropping entries with a marker, then pushing every new manifest mod. -/
def updateProfileMods (profile_mods new_mods : List ProfileMod) :
    List ProfileMod :=
  let updated := profile_mods.foldl
    (fun acc m => if m.modpack_origin.isNone then acc ++ [m] else acc) []
  new_mods.foldl (fun acc m => acc ++ [m]) updated

/-! ### §4.7 CurseForge update check — `check_mod_updates_bulk`,
`find_best_matching_file` (`integrations/curseforge.rs`) and
`extract_loaders_from_game_versions` (`integrations/unified_mod.rs`) -/

/-- The struct `CurseForgeFileHash` (`algo` 1 = SHA1, 2 = MD5). -/
structure CurseForgeFileHash where
  algo : Nat
  value : String
  deriving DecidableEq, Repr

/-- The struct `CurseForgeDependency` (`modId`, `relationType`). -/
structure CurseForgeDependency where
  modId : Nat
  relationType : Nat
  deriving DecidableEq, Repr

/-- The fields of `CurseForgeFile` consumed by the update check. -/
structure CurseForgeFile where
  id : Nat
  fileName : String
  displayName : String
  fileDate : String
  downloadUrl : String
  releaseType : Nat
  fileLength : Nat
  gameVersions : List String
  dependencies : List CurseForgeDependency
  hashes : List CurseForgeFileHash
  deriving DecidableEq, Repr

/-- The struct `CurseForgeFingerprintMatch`: matched project `id`, the installed `file`,
and the project's `latest_files`. -/
structure CurseForgeFingerprintMatch where
  id : Nat
  file : CurseForgeFile
  latest_files : List CurseForgeFile
  deriving DecidableEq, Repr

/-- The fields of `CurseForgeMod` consumed when resolving the fingerprint
match against `get_mods_by_ids`'s bulk response. -/
structure CurseForgeModInfo where
  id : Nat
  name : String
  deriving DecidableEq, Repr

/-- The struct `CurseForgeUpdateInfo`. -/
structure CurseForgeUpdateInfo where
  original_fingerprint : Nat
  fingerprint : Nat
  project_id : Nat
  file_id : Nat
  file_name : String
  download_url : String
  release_type : Nat
  game_versions : List String
  dependencies : List CurseForgeDependency
  hash_sha1 : Option String
  file_size : Nat
  file_date : String
  deriving DecidableEq, Repr

/-- The function `extract_loaders_from_game_versions` of `unified_mod.rs`: derive loader
names from a mixed `gameVersions` array by lowercase substring tests. -/
def extract_loaders_from_game_versions (game_versions : List String) :
    List String :=
  game_versions.filterMap fun version =>
    let version_lower := strToLowerB version
    if strContainsB version_lower "forge"
        && !(strContainsB version_lower "neoforge") then some "forge"
    else if strContainsB version_lower "fabric" then some "fabric"
    else if strContainsB version_lower "quilt" then some "quilt"
    else if strContainsB version_lower "neoforge" then some "neoforge"
    else if strContainsB version_lower "liteloader" then some "liteloader"
    else if strContainsB version_lower "cauldron" then some "cauldron"
    else none

/-- The per-file compatibility test inside `find_best_matching_file`: some
caller game version occurs in the file's `gameVersions`, and some caller
loader occurs in the file's derived loader set. -/
def fileCompatible (game_versions loaders : List String)
    (file : CurseForgeFile) : Bool :=
  let file_loaders := extract_loaders_from_game_versions file.gameVersions
  (game_versions.any fun gv => file.gameVersions.contains gv)
    && (loaders.any fun loader => file_loaders.contains loader)

/-- The function `find_best_matching_file`: the first file passing both filters, `none`
when no file is compatible. -/
def find_best_matching_file (files : List CurseForgeFile)
    (game_versions loaders : List String) : Option CurseForgeFile :=
  files.find? (fileCompatible game_versions loaders)

/-- Building one `CurseForgeUpdateInfo` from the chosen best file (shared by
the exact- and partial-match loops of `check_mod_updates_bulk`). -/
def mkUpdateInfo (original_fingerprint match_id mod_data_id : Nat)
    (best_file : CurseForgeFile) : CurseForgeUpdateInfo :=
  { original_fingerprint := original_fingerprint
    fingerprint := match_id
    project_id := mod_data_id
    file_id := best_file.id
    file_name := best_file.fileName
    download_url := best_file.downloadUrl
    release_type := best_file.releaseType
    game_versions := best_file.gameVersions
    dependencies := best_file.dependencies
    hash_sha1 := ((best_file.hashes.find? fun h => h.algo == 1).map (·.value))
    file_size := best_file.fileLength
    file_date := best_file.fileDate }

/-- One iteration of the exact-match loop of `check_mod_updates_bulk`:
`none` models `continue` (mod data missing, or no compatible file, or the
best file neither strictly newer by date nor different by id); `some` models
pushing the update. -/
def exactMatchUpdate (game_versions loaders : List String)
    (mods : List CurseForgeModInfo) (original_fingerprint : Nat)
    (fingerprint_match : CurseForgeFingerprintMatch) :
    Option CurseForgeUpdateInfo :=
  match mods.find? fun m => m.id == fingerprint_match.id with
  | none => none
  | some mod_data =>
    match find_best_matching_file fingerprint_match.latest_files game_versions
        loaders with
    | none => none
    | some best_file =>
      let date_newer := strLtB fingerprint_match.file.fileDate best_file.fileDate
      let id_different := best_file.id != fingerprint_match.file.id
      if date_newer || id_different then
        some (mkUpdateInfo original_fingerprint fingerprint_match.id mod_data.id
          best_file)
      else none

/-- The exact-match loop (`for (index, fingerprint_match) in
exact_matches.iter().enumerate()`): the match at position `index` is paired
with `exact_fingerprints[index]`, modelled by walking both lists in step
(`headD _ 0` stands for the in-bounds access the API contract guarantees). -/
def processExactMatches (game_versions loaders : List String)
    (mods : List CurseForgeModInfo) :
    List CurseForgeFingerprintMatch → List Nat → List CurseForgeUpdateInfo
  | [], _ => []
  | fingerprint_match :: rest, fingerprints =>
    match exactMatchUpdate game_versions loaders mods (fingerprints.headD 0)
        fingerprint_match with
    | some update_info =>
        update_info
          :: processExactMatches game_versions loaders mods rest
            fingerprints.tail
    | none =>
        processExactMatches game_versions loaders mods rest fingerprints.tail

/-- One iteration of the partial-match loop: a compatible best file is always
reported (no installed baseline); the original fingerprint is looked up in
`partial_match_fingerprints` keyed by the project id's decimal string, with
the `unwrap_or(0)` fallback. -/
def partialMatchUpdate (game_versions loaders : List String)
    (mods : List CurseForgeModInfo)
    (partial_match_fingerprints : List (String × List Nat))
    (fingerprint_match : CurseForgeFingerprintMatch) :
    Option CurseForgeUpdateInfo :=
  match mods.find? fun m => m.id == fingerprint_match.id with
  | none => none
  | some mod_data =>
    match find_best_matching_file fingerprint_match.latest_files game_versions
        loaders with
    | none => none
    | some best_file =>
      let original_fingerprint :=
        (((lookupAssoc partial_match_fingerprints
            (toString fingerprint_match.id)).bind fun fps => fps.head?).getD 0)
      some (mkUpdateInfo original_fingerprint fingerprint_match.id mod_data.id
        best_file)

/-- The partial-match loop of `check_mod_updates_bulk`. -/
def processPartialMatches (game_versions loaders : List String)
    (mods : List CurseForgeModInfo)
    (partial_match_fingerprints : List (String × List Nat))
    (partial_matches : List CurseForgeFingerprintMatch) :
    List CurseForgeUpdateInfo :=
  partial_matches.filterMap
    (partialMatchUpdate game_versions loaders mods partial_match_fingerprints)

/-- The update list assembled by `check_mod_updates_bulk` from a fingerprint
response and the bulk mod-details response: exact-match updates followed by
partial-match updates. -/
def curseforgeComputeUpdates (game_versions loaders : List String)
    (mods : List CurseForgeModInfo)
    (exact_matches : List CurseForgeFingerprintMatch)
    (exact_fingerprints : List Nat)
    (partial_matches : List CurseForgeFingerprintMatch)
    (partial_match_fingerprints : List (String × List Nat)) :
    List CurseForgeUpdateInfo :=
  processExactMatches game_versions loaders mods exact_matches
      exact_fingerprints
    ++ processPartialMatches game_versions loaders mods
      partial_match_fingerprints partial_matches

/-! ### §4.7 unified merge — `check_mod_updates_unified`,
`check_curseforge_updates_only` (`integrations/unified_mod.rs`) -/

inductive ModPlatform where
  | Modrinth
  | CurseForge
  deriving DecidableEq, Repr

/-- The fields of `UnifiedUpdateCheckRequest` consumed by hash grouping,
fingerprint collection and key construction. -/
structure UnifiedUpdateCheckRequest where
  hashes : List String
  algorithm : String
  loaders : List String
  game_versions : List String
  hash_platforms : Option (List (String × ModPlatform))
  hash_fingerprints : Option (List (String × Nat))
  deriving Repr

/-- The helper `group_hashes_by_platform`: split the request's hashes into
(Modrinth, CurseForge) lists; an unmapped hash, or an absent mapping, defaults
to Modrinth. -/
def groupHashesByPlatform (request : UnifiedUpdateCheckRequest) :
    List String × List String :=
  match request.hash_platforms with
  | some hash_platforms =>
    request.hashes.foldl
      (fun (acc : List String × List String) h =>
        match lookupAssoc hash_platforms h with
        | some ModPlatform.Modrinth => (acc.1 ++ [h], acc.2)
        | some ModPlatform.CurseForge => (acc.1, acc.2 ++ [h])
        | none => (acc.1 ++ [h], acc.2))
      ([], [])
  | none => (request.hashes, [])

/-- Fingerprint collection in `check_curseforge_updates_only`: each
CurseForge hash with an entry in `hash_fingerprints` contributes its
fingerprint; hashes without one are dropped with a warning. -/
def collectCurseforgeFingerprints (request : UnifiedUpdateCheckRequest)
    (curseforge_hashes : List String) : List Nat :=
  match request.hash_fingerprints with
  | some hash_fingerprints =>
      curseforge_hashes.filterMap fun h => lookupAssoc hash_fingerprints h
  | none => []

/-- The key under which `check_curseforge_updates_only` inserts one update
into its map: the decimal string of `update_info.original_fingerprint`. -/
def curseforgeUpdateKey (update_info : CurseForgeUpdateInfo) : String :=
  toString update_info.original_fingerprint

/-- The key set of the CurseForge-side updates map, in insertion order. -/
def curseforgeUpdatesOnlyKeys (update_results : List CurseForgeUpdateInfo) :
    List String :=
  update_results.map curseforgeUpdateKey

/-- The key set of `check_mod_updates_unified`'s merged map: Modrinth keys
(the keys of the Modrinth bulk response) extended with the CurseForge keys. -/
def mergedUpdateKeys (modrinth_keys : List String)
    (curseforge_results : List CurseForgeUpdateInfo) : List String :=
  modrinth_keys ++ curseforgeUpdatesOnlyKeys curseforge_results

/-! ### §4.6 overrides extraction path computation —
`extract_curseforge_overrides` (`integrations/curseforge.rs`)

The destination of an archive entry is `target_dir.join(rel)` where `rel` is
computed purely from the entry name; the embedding computes `rel` as a
component list (Unix path semantics, the build the launcher targets). -/

/-- The character classes removed by `sanitize_filename::sanitize` with the
default options: the illegal set `/?<>\:*|"` and the control ranges
`0x00–0x1f`, `0x80–0x9f`. -/
def illegalFilenameChar (c : Char) : Bool :=
  c == '/' || c == '?' || c == '<' || c == '>' || c == '\\' || c == ':'
    || c == '*' || c == '|' || c == '"'
    || decide (c.toNat < 32)
    || (decide (128 ≤ c.toNat) && decide (c.toNat ≤ 159))

/-- Byte-budget truncation on a char boundary (`sanitize_filename`'s
`truncate` to 255 bytes). -/
def takeUtf8Bytes : Nat → List Char → List Char
  | _, [] => []
  | budget, c :: cs =>
    if c.utf8Size ≤ budget then c :: takeUtf8Bytes (budget - c.utf8Size) cs
    else []

/-- The crate call `sanitize_filename::sanitize` with default non-Windows options: remove
illegal and control chars, replace an all-dots name (`^\.+$`) by the empty
string, truncate to 255 bytes. -/
def sanitizeFilenameStr (s : String) : String :=
  let s1 := s.data.filter fun c => !illegalFilenameChar c
  let s2 := if !s1.isEmpty && s1.all (· == '.') then [] else s1
  String.mk (takeUtf8Bytes 255 s2)

/-- The `mods/` → `custom_mods/` remap applied to the sanitized relative
path: a path whose string form starts with `"mods/"` (or `"mods\"`, which
cannot occur after sanitization) is redirected under `custom_mods`. -/
def remapModsFolder (comps : List String) : List String :=
  match comps with
  | [] => []
  | first :: rest =>
    if first == "mods" && !rest.isEmpty then "custom_mods" :: rest
    else first :: rest

/-- The destination path (relative to the target profile directory) computed
by `extract_curseforge_overrides` for one archive entry name: `none` when the
entry is skipped (not under the overrides prefix, nothing after the prefix,
or an empty sanitized path), `some comps` when the destination is
`target_dir.join(comps)`.  Components: split on `'/'`; empty chunks, `"."`
(CurDir, and the leading RootDir of an absolute remainder) and `".."`
(ParentDir) are dropped; normal components are sanitized and dropped when the
sanitized form is empty. -/
def overridesDestComponents (overrides_dir entry_name : String) :
    Option (List String) :=
  let overrides_prefix := overrides_dir ++ "/"
  if strStartsWithB entry_name overrides_prefix then
    let path_after_prefix := entry_name.data.drop overrides_prefix.data.length
    if path_after_prefix.isEmpty then none
    else
      let comps := (splitOnCharList '/' path_after_prefix).filterMap
        fun part =>
          if part.isEmpty || part == ['.'] || part == ['.', '.'] then none
          else
            let s := sanitizeFilenameStr (String.mk part)
            if s.data.isEmpty then none else some s
      if comps.isEmpty then none
      else some (remapModsFolder comps)
  else none

/-- A path component that cannot escape its base directory: nonempty, not a
dot-link, and free of both separators. -/
def safePathComponent (c : String) : Prop :=
  c ≠ "" ∧ c ≠ "." ∧ c ≠ ".." ∧ '/' ∉ c.data ∧ '\\' ∉ c.data

instance (c : String) : Decidable (safePathComponent c) := by
  unfold safePathComponent; infer_instance

/-! ### §4.5 sync engine — `ModDownloadService::sync_mods_to_profile`
(`minecraft/downloads/mod_downloader.rs`) -/

/-- A directory entry as `read_dir` reports it: a regular file (with its
content, to express "untouched") or a subdirectory (its inner tree abstracted
as a payload the sync engine never inspects). -/
inductive FsEntry where
  | file (content : String)
  | dir (payload : List String)
  deriving DecidableEq, Repr

/-- Rust `path.is_file()` for a directory entry. -/
def FsEntry.isFile : FsEntry → Bool
  | FsEntry.file _ => true
  | FsEntry.dir _ => false

/-- The profile's mods directory: named entries (a real directory has unique
names — theorems assume `nodupNames`). -/
abbrev MdDir := List (String × FsEntry)

def nodupNames (d : MdDir) : Prop := (d.map Prod.fst).Nodup

instance (d : MdDir) : Decidable (nodupNames d) := by
  unfold nodupNames
  infer_instance

/-- Lookup of the entry named `n`. -/
def lookupEntry (d : MdDir) (n : String) : Option FsEntry :=
  (d.find? fun e => e.1 == n).map (·.2)

/-- The `existing_filenames` scan: names of the top-level regular files
(`path.is_file()`), directories are not recorded. -/
def existingFilenames (d : MdDir) : List String :=
  (d.filter fun e => e.2.isFile).map (·.1)

/-- Drop every entry named `n` (`fs::remove_file`'s effect, and the overwrite
part of `fs::copy`). -/
def eraseName (d : MdDir) (n : String) : MdDir :=
  d.filter fun e => e.1 != n

/-- Write file `n` with content `c` (the effect of a completed `fs::copy`). -/
def setFile (d : MdDir) (n c : String) : MdDir :=
  eraseName d n ++ [(n, FsEntry.file c)]

/-- The struct `TargetMod` (`minecraft/downloads/mod_resolver.rs`): resolved filename
and cache path.
Modelled from the spec: the struct declaration is outside the provided
sources; fields follow `sync_mods_to_profile`'s uses (`tm.filename`,
`tm.cache_path`). -/
structure TargetMod where
  filename : String
  cache_path : String
  deriving DecidableEq, Repr

/-- The map `required_mods`: the `HashMap` collected from `target_mods`
(`filename -> cache_path`; on duplicate filenames the later entry wins). -/
def buildRequiredMap (target_mods : List TargetMod) : List (String × String) :=
  target_mods.foldl
    (fun acc tm => (acc.filter fun p => p.1 != tm.filename)
      ++ [(tm.filename, tm.cache_path)]) []

/-- The set `required_filenames`: the key set of `required_mods`. -/
def requiredFilenames (target_mods : List TargetMod) : List String :=
  (buildRequiredMap target_mods).map (·.1)

/-- The two set differences computed by `sync_mods_to_profile`:
`mods_to_remove = existing − required` and `mods_to_add = required −
existing`. -/
def syncPlan (target_mods : List TargetMod) (d : MdDir) :
    List String × List String :=
  let required := requiredFilenames target_mods
  let existing := existingFilenames d
  (existing.filter fun n => decide (n ∉ required),
   required.filter fun n => decide (n ∉ existing))

/-- Sync I/O errors: a filesystem failure (missing removal target, missing
cache source, copy onto a directory) or the "cache path not found" internal
error. -/
inductive SyncErr where
  | ioError (what : String)
  | internalError (what : String)
  deriving DecidableEq, Repr

/-- The removal loop: delete each `mods_to_remove` file, stopping with the
directory state reached so far when a removal fails. -/
def removeFiles : List String → MdDir → MdDir × Option SyncErr
  | [], d => (d, none)
  | n :: ns, d =>
    match lookupEntry d n with
    | some (FsEntry.file _) => removeFiles ns (eraseName d n)
    | _ => (d, some (SyncErr.ioError n))

/-- The copy loop: for each `mods_to_add` filename, look up its cache path in
`required_mods` (absence is the fatal internal error), read the cache file,
and write the destination; `fs::copy` fails when the cache file is missing or
the destination name is a directory. -/
def copyFiles (cache : List (String × String))
    (required_mods : List (String × String)) :
    List String → MdDir → MdDir × Option SyncErr
  | [], d => (d, none)
  | n :: ns, d =>
    match lookupAssoc required_mods n with
    | none => (d, some (SyncErr.internalError n))
    | some cache_path =>
      match lookupAssoc cache cache_path with
      | none => (d, some (SyncErr.ioError cache_path))
      | some content =>
        match lookupEntry d n with
        | some (FsEntry.dir _) => (d, some (SyncErr.ioError n))
        | _ => copyFiles cache required_mods ns (setFile d n content)

/-- The sync engine `sync_mods_to_profile`: list the current files, compute the two
differences, remove then copy; the final directory state is returned together
with the first failure, if any. -/
def syncModsToProfile (target_mods : List TargetMod)
    (cache : List (String × String)) (d : MdDir) : MdDir × Option SyncErr :=
  let required_mods := buildRequiredMap target_mods
  let plan := syncPlan target_mods d
  match removeFiles plan.1 d with
  | (d1, some e) => (d1, some e)
  | (d1, none) => copyFiles cache required_mods plan.2 d1

/-- Total UTF-8 byte length of a char list. -/
def utf8Len : List Char → Nat
  | [] => 0
  | c :: cs => c.utf8Size + utf8Len cs

/-! ## Example data for the update-check claims -/

/-- An installed file: id 1, dated 2024, fabric on 1.21. -/
def cfFileInstalled : CurseForgeFile :=
  ⟨1, "old.jar", "Old", "2024-01-01", "u0", 1, 4, ["1.21", "Fabric"], [], []⟩

/-- A newer compatible file: id 2, dated 2025, fabric on 1.21. -/
def cfFileNewer : CurseForgeFile :=
  ⟨2, "new.jar", "New", "2025-01-01", "u1", 1, 5, ["1.21", "Fabric"], [], []⟩

/-- A file compatible only with Forge on 1.19. -/
def cfFileIncompatible : CurseForgeFile :=
  ⟨3, "forge.jar", "Forge only", "2026-01-01", "u2", 1, 6, ["1.19", "Forge"],
    [], []⟩

/-- Spec §8 reconciliation scenario data. -/
def syncDirEx : MdDir := [("a.jar", FsEntry.file "A"), ("b.jar", FsEntry.file "B")]

def syncTargetsEx : List TargetMod :=
  [⟨"b.jar", "cache/b.jar"⟩, ⟨"c.jar", "cache/c.jar"⟩]

def syncCacheEx : List (String × String) :=
  [("cache/b.jar", "B"), ("cache/c.jar", "C")]

def syncDirEx' : MdDir := [("b.jar", FsEntry.file "B"), ("c.jar", FsEntry.file "C")]

/-- A mods directory holding a subdirectory with contents. -/
def syncDirWithSubEx : MdDir :=
  [("shaderpacks", FsEntry.dir ["pack.zip"]), ("a.jar", FsEntry.file "A")]

/-! ## Helper lemmas -/

theorem foldl_push_filter {α : Type} (p : α → Bool) :
    ∀ (l acc : List α),
      l.foldl (fun acc m => if p m then acc ++ [m] else acc) acc
        = acc ++ l.filter p
  | [], acc => by simp
  | x :: xs, acc => by
    by_cases h : p x
    · simp [h, foldl_push_filter p xs]
    · simp [h, foldl_push_filter p xs]

theorem foldl_push_all {α : Type} :
    ∀ (l acc : List α), l.foldl (fun acc m => acc ++ [m]) acc = acc ++ l
  | [], acc => by simp
  | x :: xs, acc => by simp [foldl_push_all xs]

/-! ## C6 — modpack switch keeps user-added entries, replaces marked ones -/

/-- C6: `switch_modpack_version`'s mod-list update equals "user-added entries
(no modpack-origin marker), in their original order, followed by all entries
of the new manifest"; consequently an entry is in the updated list exactly
when it is an unmarked existing entry or a new manifest entry. -/
theorem switch_modpack_mod_list (profile_mods new_mods : List ProfileMod) :
    updateProfileMods profile_mods new_mods
      = (profile_mods.filter fun m => m.modpack_origin.isNone) ++ new_mods
    ∧ ∀ m : ProfileMod,
        m ∈ updateProfileMods profile_mods new_mods
          ↔ ((m ∈ profile_mods ∧ m.modpack_origin = none) ∨ m ∈ new_mods) := by
  have heq : updateProfileMods profile_mods new_mods
      = (profile_mods.filter fun m => m.modpack_origin.isNone) ++ new_mods := by
    unfold updateProfileMods
    rw [foldl_push_filter, foldl_push_all]
    simp
  refine ⟨heq, fun m => ?_⟩
  rw [heq]
  simp [List.mem_filter, Option.isNone_iff_eq_none, and_comm]

/-! ## C7 — memory clamping (corrected) -/

/-- C7 counterexample: with 2048 MB of detected system memory and any
recommended hint, the chosen amount is 1024 MB, which exceeds
"total memory − 2 GiB" (= 0 MB): the 1 GiB floor overrides the cap. -/
theorem determine_memory_settings_cap_violated :
    (determine_memory_settings (some 4096) 2048).max = 1024
      ∧ ¬((determine_memory_settings (some 4096) 2048).max ≤ 2048 - 2048) := by
  constructor
  · decide
  · decide

/-- C7 amended: whenever the detected system memory is at least 3 GiB (so the
"total − 2 GiB" cap is itself at least the 1 GiB floor), the chosen amount is
between 1 GiB and the 16384 MB hard ceiling, never exceeds total − 2 GiB, and
min = max.  (Below 3 GiB of system memory the 1 GiB floor takes precedence
over the total − 2 GiB cap.) -/
theorem determine_memory_settings_bounds (recommended system_ram_mb : Nat)
    (h : 3072 ≤ system_ram_mb) :
    1024 ≤ (determine_memory_settings (some recommended) system_ram_mb).max
      ∧ (determine_memory_settings (some recommended) system_ram_mb).max ≤ 16384
      ∧ (determine_memory_settings (some recommended) system_ram_mb).max
          ≤ system_ram_mb - 2048
      ∧ (determine_memory_settings (some recommended) system_ram_mb).min
          = (determine_memory_settings (some recommended) system_ram_mb).max := by
  unfold determine_memory_settings
  dsimp only
  split
  · dsimp only
    refine ⟨?_, ?_, ?_, rfl⟩ <;>
      · simp only [Nat.min_def, Nat.max_def]
        split_ifs <;> omega
  · dsimp only
    refine ⟨?_, ?_, ?_, rfl⟩ <;>
      · simp only [Nat.min_def, Nat.max_def]
        split_ifs <;> omega

theorem determine_memory_settings_bounds_witness :
    3072 ≤ 16384
      ∧ (1024 ≤ (determine_memory_settings (some 8192) 16384).max
        ∧ (determine_memory_settings (some 8192) 16384).max ≤ 16384
        ∧ (determine_memory_settings (some 8192) 16384).max ≤ 16384 - 2048
        ∧ (determine_memory_settings (some 8192) 16384).min
            = (determine_memory_settings (some 8192) 16384).max) :=
  ⟨by decide, determine_memory_settings_bounds 8192 16384 (by decide)⟩

/-! ## C8 — Maven cache download (corrected) -/

/-- C8 counterexample: in `download_mods_to_cache`, an enabled profile entry
with a Maven source is skipped (`Ok(())`, "not implemented"), not fetched. -/
theorem profile_maven_source_skipped :
    cacheActionForSource
        (ModSource.Maven "central" "com.example" "artifact" "1.0")
      = CacheDownloadAction.skip := rfl

/-- C8 amended: the profile-mod cache download skips every Maven source,
while the Norisk pack cache download is the code that composes
`repo/group-as-path/artifact/version/filename` and fetches it, for any Maven
pack source whose repository reference resolves. -/
theorem maven_cache_dispatch (repositories : List (String × String))
    (repository_ref group_id artifact_id version filename repo : String)
    (h : lookupAssoc repositories repository_ref = some repo) :
    cacheActionForSource
        (ModSource.Maven repository_ref group_id artifact_id version)
      = CacheDownloadAction.skip
    ∧ packCacheAction repositories
        (NoriskModSourceDefinition.Maven repository_ref group_id artifact_id)
        version filename
      = Except.ok (CacheDownloadAction.fetch
          (mavenDownloadUrl (strTrimEndSlashes repo) group_id artifact_id
            version filename) none) := by
  refine ⟨rfl, ?_⟩
  simp only [packCacheAction, h]

theorem maven_cache_dispatch_witness :
    lookupAssoc [("central", "https://repo.example/")] "central"
        = some "https://repo.example/"
      ∧ (cacheActionForSource
            (ModSource.Maven "central" "com.example" "art" "1.0")
          = CacheDownloadAction.skip
        ∧ packCacheAction [("central", "https://repo.example/")]
            (NoriskModSourceDefinition.Maven "central" "com.example" "art")
            "1.0" "art-1.0.jar"
          = Except.ok (CacheDownloadAction.fetch
              (mavenDownloadUrl (strTrimEndSlashes "https://repo.example/")
                "com.example" "art" "1.0" "art-1.0.jar") none)) :=
  ⟨by decide,
    maven_cache_dispatch [("central", "https://repo.example/")] "central"
      "com.example" "art" "1.0" "art-1.0.jar" "https://repo.example/"
      (by decide)⟩

/-! ## C9 — batch runs to completion, first collected failure returned -/

theorem collectBatchErrors_eq (results : List (Except BatchErr Unit)) :
    collectBatchErrors results
      = results.filterMap fun r =>
          match r with
          | Except.error e => some e
          | Except.ok _ => none := by
  have general : ∀ (l : List (Except BatchErr Unit)) (acc : List BatchErr),
      l.foldl (fun errs r =>
        match r with
        | Except.error e => errs ++ [e]
        | Except.ok _ => errs) acc
      = acc ++ l.filterMap fun r =>
          match r with
          | Except.error e => some e
          | Except.ok _ => none := by
    intro l
    induction l with
    | nil => intro acc; simp
    | cons x xs ih =>
      intro acc
      cases x with
      | error e => simp [ih]
      | ok u => simp [ih]
  simpa using general results []

/-- C9: the batch cache download collects every task's result; it returns
success exactly when no task failed, and otherwise the first failure in the
collected order, all tasks having run. -/
theorem batch_first_collected_failure (results : List (Except BatchErr Unit)) :
    (batchResult results = Except.ok () ↔ ∀ r ∈ results, r = Except.ok ())
    ∧ ∀ (pre post : List (Except BatchErr Unit)) (e : BatchErr),
        results = pre ++ Except.error e :: post →
        (∀ r ∈ pre, r = Except.ok ()) →
        batchResult results = Except.error e := by
  constructor
  · unfold batchResult
    rw [collectBatchErrors_eq]
    constructor
    · intro h r hr
      cases hfm : results.filterMap (fun r =>
          match r with
          | Except.error e => some e
          | Except.ok _ => none) with
      | nil =>
        have := List.filterMap_eq_nil_iff.mp hfm r hr
        cases r with
        | error e => simp at this
        | ok u => rfl
      | cons e es => rw [hfm] at h; cases h
    · intro h
      have : results.filterMap (fun r =>
          match r with
          | Except.error e => some e
          | Except.ok _ => none) = [] := by
        apply List.filterMap_eq_nil_iff.mpr
        intro r hr
        rw [h r hr]
      rw [this]
  · intro pre post e hsplit hpre
    unfold batchResult
    rw [collectBatchErrors_eq, hsplit]
    have hprenil : pre.filterMap (fun r =>
        match r with
        | Except.error e => some e
        | Except.ok _ => none) = [] := by
      apply List.filterMap_eq_nil_iff.mpr
      intro r hr
      rw [hpre r hr]
    simp [hprenil]

theorem batch_first_collected_failure_witness :
    ([Except.ok (), Except.error ⟨"first"⟩, Except.error ⟨"second"⟩]
        = [Except.ok ()] ++ Except.error (⟨"first"⟩ : BatchErr)
            :: [Except.error ⟨"second"⟩])
      ∧ batchResult
          [Except.ok (), Except.error ⟨"first"⟩, Except.error ⟨"second"⟩]
        = Except.error ⟨"first"⟩ :=
  ⟨rfl,
    (batch_first_collected_failure
        [Except.ok (), Except.error ⟨"first"⟩, Except.error ⟨"second"⟩]).2
      [Except.ok ()] [Except.error ⟨"second"⟩] ⟨"first"⟩ rfl (by simp)⟩

/-! ## C3 — exact fingerprint match reported iff newer date or different id -/

/-- C3: for an exact fingerprint match whose project was found in the bulk
mod-details response and that has a compatible best file, the update is
reported if and only if the best file's date is strictly newer than the
installed file's date or its id differs from the installed file's id. -/
theorem exact_match_reported_iff (game_versions loaders : List String)
    (mods : List CurseForgeModInfo) (original_fingerprint : Nat)
    (fm : CurseForgeFingerprintMatch) (mod_data : CurseForgeModInfo)
    (best_file : CurseForgeFile)
    (hmod : mods.find? (fun x => x.id == fm.id) = some mod_data)
    (hbest : find_best_matching_file fm.latest_files game_versions loaders
      = some best_file) :
    (exactMatchUpdate game_versions loaders mods original_fingerprint fm).isSome
      ↔ (strLtB fm.file.fileDate best_file.fileDate = true
          ∨ best_file.id ≠ fm.file.id) := by
  simp only [exactMatchUpdate, hmod, hbest]
  cases hdate : strLtB fm.file.fileDate best_file.fileDate with
  | true => simp
  | false =>
    cases hid : best_file.id == fm.file.id with
    | true =>
      have : best_file.id = fm.file.id := by simpa using hid
      simp [this]
    | false =>
      have : best_file.id ≠ fm.file.id := by simpa using hid
      simp [bne, hid, this]

theorem exact_match_reported_iff_witness :
    ([⟨10, "Sodium"⟩] : List CurseForgeModInfo).find?
          (fun x => x.id
            == (⟨10, cfFileInstalled, [cfFileNewer]⟩ :
                CurseForgeFingerprintMatch).id)
        = some ⟨10, "Sodium"⟩
      ∧ find_best_matching_file
          (⟨10, cfFileInstalled, [cfFileNewer]⟩ :
            CurseForgeFingerprintMatch).latest_files ["1.21"] ["fabric"]
        = some cfFileNewer
      ∧ ((exactMatchUpdate ["1.21"] ["fabric"] [⟨10, "Sodium"⟩] 123
            ⟨10, cfFileInstalled, [cfFileNewer]⟩).isSome
          ↔ (strLtB (⟨10, cfFileInstalled, [cfFileNewer]⟩ :
                CurseForgeFingerprintMatch).file.fileDate cfFileNewer.fileDate
                = true
              ∨ cfFileNewer.id
                ≠ (⟨10, cfFileInstalled, [cfFileNewer]⟩ :
                    CurseForgeFingerprintMatch).file.id)) :=
  ⟨by decide, by decide,
    exact_match_reported_iff ["1.21"] ["fabric"] [⟨10, "Sodium"⟩] 123
      ⟨10, cfFileInstalled, [cfFileNewer]⟩ ⟨10, "Sodium"⟩ cfFileNewer
      (by decide) (by decide)⟩

/-! ## C4 — fully incompatible candidates are never reported -/

/-- C4: a fingerprint-matched candidate none of whose latest files passes the
game-version/loader compatibility filter is reported neither by the
exact-match path nor by the partial-match path, regardless of file dates. -/
theorem incompatible_candidate_not_reported (game_versions loaders : List String)
    (mods : List CurseForgeModInfo) (original_fingerprint : Nat)
    (partial_match_fingerprints : List (String × List Nat))
    (fm : CurseForgeFingerprintMatch)
    (h : ∀ f ∈ fm.latest_files, fileCompatible game_versions loaders f = false) :
    exactMatchUpdate game_versions loaders mods original_fingerprint fm = none
      ∧ partialMatchUpdate game_versions loaders mods partial_match_fingerprints
          fm = none := by
  have hbest : find_best_matching_file fm.latest_files game_versions loaders
      = none := by
    unfold find_best_matching_file
    apply List.find?_eq_none.mpr
    intro f hf
    simp [h f hf]
  constructor
  · cases hfind : mods.find? (fun x => x.id == fm.id) with
    | none => simp [exactMatchUpdate, hfind]
    | some mod_data => simp [exactMatchUpdate, hfind, hbest]
  · cases hfind : mods.find? (fun x => x.id == fm.id) with
    | none => simp [partialMatchUpdate, hfind]
    | some mod_data => simp [partialMatchUpdate, hfind, hbest]

theorem incompatible_candidate_not_reported_witness :
    (∀ f ∈ (⟨77, cfFileInstalled, [cfFileIncompatible]⟩ :
        CurseForgeFingerprintMatch).latest_files,
      fileCompatible ["1.21"] ["fabric"] f = false)
      ∧ (exactMatchUpdate ["1.21"] ["fabric"] [⟨77, "SomeMod"⟩] 55
            ⟨77, cfFileInstalled, [cfFileIncompatible]⟩ = none
        ∧ partialMatchUpdate ["1.21"] ["fabric"] [⟨77, "SomeMod"⟩] [("77", [55])]
            ⟨77, cfFileInstalled, [cfFileIncompatible]⟩ = none) :=
  ⟨by decide,
    incompatible_candidate_not_reported ["1.21"] ["fabric"] [⟨77, "SomeMod"⟩]
      55 [("77", [55])] ⟨77, cfFileInstalled, [cfFileIncompatible]⟩ (by decide)⟩

/-! ## C5 — merged update-map keys (corrected) -/

/-- C5 counterexample: a request supplying the single identifier
`"hash-deadbeef"` (a CurseForge hash with fingerprint 123) yields, through
the exact-match pipeline, the merged key `"123"` — the fingerprint's decimal
string — which is not among the identifiers originally supplied. -/
theorem merged_update_keys_counterexample :
    groupHashesByPlatform
        { hashes := ["hash-deadbeef"], algorithm := "sha1"
          loaders := ["fabric"], game_versions := ["1.21"]
          hash_platforms := some [("hash-deadbeef", ModPlatform.CurseForge)]
          hash_fingerprints := some [("hash-deadbeef", 123)] }
      = ([], ["hash-deadbeef"])
    ∧ collectCurseforgeFingerprints
        { hashes := ["hash-deadbeef"], algorithm := "sha1"
          loaders := ["fabric"], game_versions := ["1.21"]
          hash_platforms := some [("hash-deadbeef", ModPlatform.CurseForge)]
          hash_fingerprints := some [("hash-deadbeef", 123)] }
        ["hash-deadbeef"]
      = [123]
    ∧ mergedUpdateKeys []
        (processExactMatches ["1.21"] ["fabric"] [⟨10, "Sodium"⟩]
          [⟨10, cfFileInstalled, [cfFileNewer]⟩] [123])
      = ["123"]
    ∧ ("123" : String) ∉ ["hash-deadbeef"] :=
  ⟨by decide, by decide, by decide, by decide⟩

/-- The step `exactMatchUpdate` stamps the update with the fingerprint it was given. -/
theorem exactMatchUpdate_fingerprint (game_versions loaders : List String)
    (mods : List CurseForgeModInfo) (ofp : Nat)
    (fm : CurseForgeFingerprintMatch) (u : CurseForgeUpdateInfo)
    (h : exactMatchUpdate game_versions loaders mods ofp fm = some u) :
    u.original_fingerprint = ofp := by
  unfold exactMatchUpdate at h
  rcases hfind : mods.find? (fun x => x.id == fm.id) with _ | mod_data <;>
    rw [hfind] at h
  · cases h
  · rcases hbest : find_best_matching_file fm.latest_files game_versions loaders
        with _ | best_file <;> rw [hbest] at h
    · cases h
    · dsimp only at h
      split at h
      · cases h
        rfl
      · cases h

/-- Every exact-match update carries one of the supplied fingerprints, when
the platform returns as many `exactFingerprints` as exact matches. -/
theorem processExactMatches_fingerprint_mem (game_versions loaders : List String)
    (mods : List CurseForgeModInfo) :
    ∀ (exact_matches : List CurseForgeFingerprintMatch)
      (exact_fingerprints : List Nat),
      exact_matches.length ≤ exact_fingerprints.length →
      ∀ u ∈ processExactMatches game_versions loaders mods exact_matches
          exact_fingerprints,
        u.original_fingerprint ∈ exact_fingerprints
  | [], fps, _, u, hu => by simp [processExactMatches] at hu
  | fm :: rest, [], hlen, u, hu => by simp at hlen
  | fm :: rest, f :: fs, hlen, u, hu => by
    rw [processExactMatches] at hu
    simp only [List.headD_cons, List.tail_cons] at hu
    rcases hx : exactMatchUpdate game_versions loaders mods f fm
        with _ | u' <;> rw [hx] at hu
    · have := processExactMatches_fingerprint_mem game_versions loaders mods
        rest fs (by simpa using Nat.le_of_succ_le_succ hlen) u hu
      exact List.mem_cons_of_mem f this
    · rcases List.mem_cons.mp hu with rfl | hmem
      · have := exactMatchUpdate_fingerprint game_versions loaders mods f fm
          u hx
        rw [this]
        exact List.mem_cons_self f fs
      · have := processExactMatches_fingerprint_mem game_versions loaders mods
          rest fs (by simpa using Nat.le_of_succ_le_succ hlen) u hmem
        exact List.mem_cons_of_mem f this

/-- C5 amended: every key of the merged updates map is either a key of the
Modrinth bulk response or, for the CurseForge side, the decimal string of a
fingerprint supplied to the fingerprint match (not the hash identifier the
caller used for that file). -/
theorem merged_update_keys_characterized (modrinth_keys : List String)
    (game_versions loaders : List String) (mods : List CurseForgeModInfo)
    (exact_matches : List CurseForgeFingerprintMatch)
    (exact_fingerprints : List Nat)
    (hlen : exact_matches.length ≤ exact_fingerprints.length) :
    ∀ k ∈ mergedUpdateKeys modrinth_keys
        (processExactMatches game_versions loaders mods exact_matches
          exact_fingerprints),
      k ∈ modrinth_keys ∨ ∃ fp ∈ exact_fingerprints, k = toString fp := by
  intro k hk
  rcases List.mem_append.mp hk with hm | hcf
  · exact Or.inl hm
  · right
    rcases List.mem_map.mp hcf with ⟨u, hu, hkey⟩
    refine ⟨u.original_fingerprint, ?_, ?_⟩
    · exact processExactMatches_fingerprint_mem game_versions loaders mods
        exact_matches exact_fingerprints hlen u hu
    · rw [← hkey]
      rfl

theorem merged_update_keys_characterized_witness :
    ([(⟨10, cfFileInstalled, [cfFileNewer]⟩ : CurseForgeFingerprintMatch)].length
        ≤ [(123 : Nat)].length)
      ∧ (("123" : String) ∈ ["modrinth-hash"]
          ∨ ∃ fp ∈ [(123 : Nat)], ("123" : String) = toString fp) :=
  ⟨by decide,
    merged_update_keys_characterized ["modrinth-hash"] ["1.21"] ["fabric"]
      [⟨10, "Sodium"⟩] [⟨10, cfFileInstalled, [cfFileNewer]⟩] [123] (by decide)
      "123" (by decide)⟩

/-! ## C2 — overrides extraction never escapes the target directory -/

theorem mem_takeUtf8Bytes : ∀ (b : Nat) (l : List Char) (c : Char),
    c ∈ takeUtf8Bytes b l → c ∈ l
  | _, [], c, h => by simp [takeUtf8Bytes] at h
  | b, x :: xs, c, h => by
    rw [takeUtf8Bytes] at h
    split at h
    · rcases List.mem_cons.mp h with rfl | hm
      · exact List.mem_cons_self _ _
      · exact List.mem_cons_of_mem _ (mem_takeUtf8Bytes _ xs c hm)
    · simp at h

/-- Byte-budget truncation either keeps the whole list or keeps nearly the
whole budget (the first dropped char has at most 4 bytes). -/
theorem takeUtf8Bytes_eq_or_large : ∀ (b : Nat) (l : List Char),
    takeUtf8Bytes b l = l ∨ b ≤ utf8Len (takeUtf8Bytes b l) + 3
  | _, [] => Or.inl rfl
  | b, c :: cs => by
    rw [takeUtf8Bytes]
    split
    · rcases takeUtf8Bytes_eq_or_large (b - c.utf8Size) cs with h | h
      · left
        rw [h]
      · right
        simp only [utf8Len]
        omega
    · right
      have h4 : c.utf8Size ≤ 4 := Char.utf8Size_le_four c
      simp only [utf8Len]
      omega

/-- Every char surviving sanitization was legal. -/
theorem sanitizeFilenameStr_no_illegal (s : String) (c : Char)
    (h : c ∈ (sanitizeFilenameStr s).data) : illegalFilenameChar c = false := by
  unfold sanitizeFilenameStr at h
  dsimp only at h
  have h1 := mem_takeUtf8Bytes _ _ _ h
  split at h1
  · simp at h1
  · have := (List.mem_filter.mp h1).2
    simpa using this

/-- Sanitization never yields the components `"."` or `".."`: an all-dots
name is replaced by the empty string before truncation, and truncation to a
1- or 2-char result can only happen by keeping the whole string. -/
theorem sanitizeFilenameStr_not_dots (s : String) :
    (sanitizeFilenameStr s).data ≠ ['.']
      ∧ (sanitizeFilenameStr s).data ≠ ['.', '.'] := by
  unfold sanitizeFilenameStr
  dsimp only
  set s1 := s.data.filter (fun c => !illegalFilenameChar c) with hs1
  by_cases hcond : (!s1.isEmpty && s1.all (· == '.')) = true
  · rw [if_pos hcond]
    constructor <;> decide
  · rw [if_neg hcond]
    have hdot : ('.' : Char).utf8Size = 1 := by decide
    constructor <;>
      · intro heq
        rcases takeUtf8Bytes_eq_or_large 255 s1 with ht | ht
        · rw [ht] at heq
          rw [heq] at hcond
          simp at hcond
        · rw [heq] at ht
          simp [utf8Len, hdot] at ht

theorem remapModsFolder_mem (comps : List String) (c : String)
    (h : c ∈ remapModsFolder comps) : c = "custom_mods" ∨ c ∈ comps := by
  cases comps with
  | nil => simp [remapModsFolder] at h
  | cons first rest =>
    rw [remapModsFolder] at h
    split at h
    · rcases List.mem_cons.mp h with rfl | hm
      · exact Or.inl rfl
      · exact Or.inr (List.mem_cons_of_mem _ hm)
    · exact Or.inr h

/-- C2: every component list `overridesDestComponents` produces consists of
safe components (nonempty, no `.`/`..`, no separators), so the destination
`target_dir.join(components)` always lies inside the target profile
directory, for every crafted entry name and overrides prefix. -/
theorem overrides_dest_inside_target (overrides_dir entry_name : String)
    (comps : List String)
    (h : overridesDestComponents overrides_dir entry_name = some comps) :
    ∀ c ∈ comps, safePathComponent c := by
  intro c hc
  simp only [overridesDestComponents] at h
  split at h
  · split at h
    · cases h
    · split at h
      · cases h
      · have hcomps := Option.some.inj h
        rw [← hcomps] at hc
        rcases remapModsFolder_mem _ _ hc with rfl | hmem
        · refine ⟨by decide, by decide, by decide, by decide, by decide⟩
        · rcases List.mem_filterMap.mp hmem with ⟨part, _, hf⟩
          split at hf
          · cases hf
          · split at hf
            · cases hf
            · have hce := Option.some.inj hf
              rename_i hnonempty
              rw [hce] at hnonempty
              have hdata_ne : c.data ≠ [] := by
                intro hnil
                rw [hnil] at hnonempty
                simp at hnonempty
              have hno_illegal : ∀ x ∈ c.data, illegalFilenameChar x = false := by
                intro x hx
                rw [← hce] at hx
                exact sanitizeFilenameStr_no_illegal _ _ hx
              have hnot_dots := sanitizeFilenameStr_not_dots (String.mk part)
              rw [hce] at hnot_dots
              refine ⟨?_, ?_, ?_, ?_, ?_⟩
              · intro hc0
                apply hdata_ne
                rw [hc0]
              · intro hc0
                apply hnot_dots.1
                rw [hc0]
              · intro hc0
                apply hnot_dots.2
                rw [hc0]
              · intro hx
                have := hno_illegal '/' hx
                simp [illegalFilenameChar] at this
              · intro hx
                have := hno_illegal '\\' hx
                simp [illegalFilenameChar] at this
  · cases h

theorem overrides_dest_inside_target_witness :
    overridesDestComponents "overrides"
        "overrides/../..//mods/..\\x?.jar"
      = some ["custom_mods", "..x.jar"]
      ∧ ∀ c ∈ ["custom_mods", "..x.jar"], safePathComponent c :=
  ⟨by decide,
    overrides_dest_inside_target "overrides"
      "overrides/../..//mods/..\\x?.jar" ["custom_mods", "..x.jar"]
      (by decide)⟩

/-! ## Sync-engine lemmas (for C1 and C10) -/

theorem mem_eraseName (d : MdDir) (n : String) (e : String × FsEntry) :
    e ∈ eraseName d n ↔ e ∈ d ∧ e.1 ≠ n := by
  unfold eraseName
  rw [List.mem_filter]
  simp [bne_iff_ne]

theorem mem_setFile (d : MdDir) (n c : String) (e : String × FsEntry) :
    e ∈ setFile d n c ↔ (e ∈ d ∧ e.1 ≠ n) ∨ e = (n, FsEntry.file c) := by
  unfold setFile
  rw [List.mem_append, mem_eraseName]
  simp

theorem mem_existingFilenames (d : MdDir) (n : String) :
    n ∈ existingFilenames d ↔ ∃ c, (n, FsEntry.file c) ∈ d := by
  unfold existingFilenames
  constructor
  · intro h
    rcases List.mem_map.mp h with ⟨e, hmem, hfst⟩
    obtain ⟨a, x⟩ := e
    rcases List.mem_filter.mp hmem with ⟨hd, hfile⟩
    cases x with
    | file c =>
      cases hfst
      exact ⟨c, hd⟩
    | dir p => simp [FsEntry.isFile] at hfile
  · rintro ⟨c, hmem⟩
    exact List.mem_map.mpr ⟨(n, FsEntry.file c),
      List.mem_filter.mpr ⟨hmem, rfl⟩, rfl⟩

theorem nodup_lookup : ∀ (d : MdDir), nodupNames d → ∀ (n : String)
    (x : FsEntry), (n, x) ∈ d → lookupEntry d n = some x
  | [], _, _, _, hm => by cases hm
  | (a, b) :: rest, hnd, n, x, hm => by
    have hnd' : a ∉ rest.map Prod.fst ∧ nodupNames rest := by
      have := hnd
      unfold nodupNames at this
      rw [List.map_cons, List.nodup_cons] at this
      exact this
    rcases List.mem_cons.mp hm with heq | hrest
    · obtain ⟨rfl, rfl⟩ := Prod.mk.injEq a b n x ▸ heq.symm
      simp [lookupEntry, List.find?_cons]
    · have hanems : n ∈ rest.map Prod.fst :=
        List.mem_map.mpr ⟨(n, x), hrest, rfl⟩
      have hane : (a == n) = false := by
        apply beq_false_of_ne
        intro hcontra
        exact hnd'.1 (hcontra ▸ hanems)
      have := nodup_lookup rest hnd'.2 n x hrest
      simpa [lookupEntry, List.find?_cons, hane] using this

theorem lookupEntry_cons (a : String) (b : FsEntry) (rest : MdDir)
    (m : String) :
    lookupEntry ((a, b) :: rest) m
      = if (a == m) = true then some b else lookupEntry rest m := by
  by_cases h : (a == m) = true
  · rw [if_pos h]
    unfold lookupEntry
    rw [List.find?_cons_of_pos _ (by simpa using h)]
    rfl
  · rw [if_neg h]
    unfold lookupEntry
    rw [List.find?_cons_of_neg _ (by simpa using h)]

theorem eraseName_cons (a : String) (b : FsEntry) (rest : MdDir) (n : String) :
    eraseName ((a, b) :: rest) n
      = if (a == n) = true then eraseName rest n
        else (a, b) :: eraseName rest n := by
  unfold eraseName
  rw [List.filter_cons]
  by_cases h : (a == n) = true
  · have : ((a, b).1 != n) = false := by
      simp only [bne]
      simpa using h
    simp [this, h]
  · have : ((a, b).1 != n) = true := by
      simp only [bne]
      simpa using h
    simp [this, h]

theorem lookupEntry_eraseName_ne : ∀ (d : MdDir) (n m : String), m ≠ n →
    lookupEntry (eraseName d n) m = lookupEntry d m
  | [], _, _, _ => rfl
  | (a, b) :: rest, n, m, hne => by
    have ih := lookupEntry_eraseName_ne rest n m hne
    rw [eraseName_cons]
    by_cases han : (a == n) = true
    · rw [if_pos han, ih, lookupEntry_cons]
      have ha : a = n := by simpa using han
      subst ha
      have ham : ¬((a == m) = true) := by
        simp only [beq_iff_eq]
        intro hc
        exact hne hc.symm
      rw [if_neg ham]
    · rw [if_neg han, lookupEntry_cons, lookupEntry_cons, ih]

theorem lookupEntry_append_single_ne : ∀ (l : MdDir) (n : String) (e : FsEntry)
    (m : String), m ≠ n → lookupEntry (l ++ [(n, e)]) m = lookupEntry l m
  | [], n, e, m, hne => by
    rw [List.nil_append, lookupEntry_cons]
    have : ¬((n == m) = true) := by
      simp only [beq_iff_eq]
      intro hc
      exact hne hc.symm
    rw [if_neg this]
  | (a, b) :: rest, n, e, m, hne => by
    rw [List.cons_append, lookupEntry_cons, lookupEntry_cons,
      lookupEntry_append_single_ne rest n e m hne]

theorem lookupEntry_setFile_ne (d : MdDir) (n c : String) (m : String)
    (hne : m ≠ n) : lookupEntry (setFile d n c) m = lookupEntry d m := by
  unfold setFile
  rw [lookupEntry_append_single_ne (eraseName d n) n (FsEntry.file c) m hne,
    lookupEntry_eraseName_ne d n m hne]

theorem nodupNames_eraseName (d : MdDir) (n : String) (hnd : nodupNames d) :
    nodupNames (eraseName d n) := by
  unfold nodupNames at *
  exact ((List.filter_sublist d).map Prod.fst).nodup hnd

theorem names_eraseName_not_mem (d : MdDir) (n : String) :
    n ∉ (eraseName d n).map Prod.fst := by
  intro h
  rcases List.mem_map.mp h with ⟨e, hmem, hfst⟩
  exact (mem_eraseName d n e).mp hmem |>.2 hfst

theorem nodupNames_setFile (d : MdDir) (n c : String) (hnd : nodupNames d) :
    nodupNames (setFile d n c) := by
  unfold nodupNames setFile
  rw [List.map_append]
  apply List.Nodup.append
  · exact nodupNames_eraseName d n hnd
  · simp
  · intro a ha hb
    simp at hb
    exact names_eraseName_not_mem d n (hb ▸ ha)

theorem existing_eraseName (d : MdDir) (n m : String) :
    m ∈ existingFilenames (eraseName d n)
      ↔ m ∈ existingFilenames d ∧ m ≠ n := by
  rw [mem_existingFilenames, mem_existingFilenames]
  constructor
  · rintro ⟨c, hmem⟩
    have := (mem_eraseName d n _).mp hmem
    exact ⟨⟨c, this.1⟩, this.2⟩
  · rintro ⟨⟨c, hmem⟩, hne⟩
    exact ⟨c, (mem_eraseName d n _).mpr ⟨hmem, hne⟩⟩

theorem existing_setFile (d : MdDir) (n c m : String) :
    m ∈ existingFilenames (setFile d n c)
      ↔ m ∈ existingFilenames d ∨ m = n := by
  rw [mem_existingFilenames, mem_existingFilenames]
  constructor
  · rintro ⟨c', hmem⟩
    rcases (mem_setFile d n c _).mp hmem with ⟨hd, _⟩ | heq
    · exact Or.inl ⟨c', hd⟩
    · have : m = n := congrArg Prod.fst heq
      exact Or.inr this
  · rintro (⟨c', hmem⟩ | rfl)
    · by_cases hmn : m = n
      · exact ⟨c, (mem_setFile d n c _).mpr (Or.inr (by rw [hmn]))⟩
      · exact ⟨c', (mem_setFile d n c _).mpr (Or.inl ⟨hmem, hmn⟩)⟩
    · exact ⟨c, (mem_setFile d m c _).mpr (Or.inr rfl)⟩

/-- Directories survive the removal loop whatever its outcome: removal only
ever targets names whose entry is a regular file. -/
theorem removeFiles_dirs : ∀ (ns : List String) (d : MdDir), nodupNames d →
    ∀ (m : String) (p : List String),
      ((m, FsEntry.dir p) ∈ (removeFiles ns d).1 ↔ (m, FsEntry.dir p) ∈ d)
  | [], d, _, m, p => by simp [removeFiles]
  | n :: ns, d, hnd, m, p => by
    rw [removeFiles]
    cases hl : lookupEntry d n with
    | none => simp
    | some e =>
      cases e with
      | file c =>
        have ih := removeFiles_dirs ns (eraseName d n)
          (nodupNames_eraseName d n hnd) m p
        rw [ih, mem_eraseName]
        constructor
        · exact fun h => h.1
        · intro h
          refine ⟨h, fun hmn => ?_⟩
          have hlm := nodup_lookup d hnd m (FsEntry.dir p) h
          have hmn' : m = n := hmn
          rw [hmn', hl] at hlm
          simp at hlm
      | dir q => simp

theorem removeFiles_nodup : ∀ (ns : List String) (d : MdDir), nodupNames d →
    nodupNames (removeFiles ns d).1
  | [], d, hnd => by simpa [removeFiles] using hnd
  | n :: ns, d, hnd => by
    rw [removeFiles]
    cases hl : lookupEntry d n with
    | none => simpa using hnd
    | some e =>
      cases e with
      | file c =>
        exact removeFiles_nodup ns (eraseName d n) (nodupNames_eraseName d n hnd)
      | dir q => simpa using hnd

/-- After a successful removal pass the files are exactly the previous files
minus the removal list. -/
theorem removeFiles_ok_existing : ∀ (ns : List String) (d d' : MdDir),
    removeFiles ns d = (d', none) →
    ∀ m, m ∈ existingFilenames d' ↔ (m ∈ existingFilenames d ∧ m ∉ ns)
  | [], d, d', h, m => by
    rw [removeFiles] at h
    obtain ⟨rfl, -⟩ := Prod.mk.injEq d none d' none ▸ h
    simp
  | n :: ns, d, d', h, m => by
    rw [removeFiles] at h
    cases hl : lookupEntry d n with
    | none => rw [hl] at h; cases h
    | some e =>
      cases e with
      | file c =>
        rw [hl] at h
        have ih := removeFiles_ok_existing ns (eraseName d n) d' h m
        rw [ih, existing_eraseName]
        simp only [List.mem_cons]
        tauto
      | dir q => rw [hl] at h; cases h

/-- A successful removal pass leaves every name outside the removal list
untouched. -/
theorem removeFiles_ok_lookup : ∀ (ns : List String) (d d' : MdDir),
    removeFiles ns d = (d', none) →
    ∀ m, m ∉ ns → lookupEntry d' m = lookupEntry d m
  | [], d, d', h, m, _ => by
    rw [removeFiles] at h
    obtain ⟨rfl, -⟩ := Prod.mk.injEq d none d' none ▸ h
    rfl
  | n :: ns, d, d', h, m, hm => by
    rw [removeFiles] at h
    cases hl : lookupEntry d n with
    | none => rw [hl] at h; cases h
    | some e =>
      cases e with
      | file c =>
        rw [hl] at h
        have hmn : m ≠ n := fun hc => hm (hc ▸ List.mem_cons_self n ns)
        have ih := removeFiles_ok_lookup ns (eraseName d n) d' h m
          (fun hc => hm (List.mem_cons_of_mem n hc))
        rw [ih, lookupEntry_eraseName_ne d n m hmn]
      | dir q => rw [hl] at h; cases h

/-- Step equations for `copyFiles`. -/
theorem copyFiles_cons_req_none (cache required_mods : List (String × String))
    (n : String) (ns : List String) (d : MdDir)
    (hreq : lookupAssoc required_mods n = none) :
    copyFiles cache required_mods (n :: ns) d
      = (d, some (SyncErr.internalError n)) := by
  rw [copyFiles, hreq]

theorem copyFiles_cons_cache_none (cache required_mods : List (String × String))
    (n : String) (ns : List String) (d : MdDir) (cache_path : String)
    (hreq : lookupAssoc required_mods n = some cache_path)
    (hcache : lookupAssoc cache cache_path = none) :
    copyFiles cache required_mods (n :: ns) d
      = (d, some (SyncErr.ioError cache_path)) := by
  rw [copyFiles, hreq]
  dsimp only
  rw [hcache]

theorem copyFiles_cons_dest_dir (cache required_mods : List (String × String))
    (n : String) (ns : List String) (d : MdDir) (cache_path content : String)
    (q : List String)
    (hreq : lookupAssoc required_mods n = some cache_path)
    (hcache : lookupAssoc cache cache_path = some content)
    (hl : lookupEntry d n = some (FsEntry.dir q)) :
    copyFiles cache required_mods (n :: ns) d
      = (d, some (SyncErr.ioError n)) := by
  rw [copyFiles, hreq]
  dsimp only
  rw [hcache]
  dsimp only
  rw [hl]

theorem copyFiles_cons_eq (cache required_mods : List (String × String))
    (n : String) (ns : List String) (d : MdDir) (cache_path content : String)
    (hreq : lookupAssoc required_mods n = some cache_path)
    (hcache : lookupAssoc cache cache_path = some content)
    (hl : ∀ q, lookupEntry d n ≠ some (FsEntry.dir q)) :
    copyFiles cache required_mods (n :: ns) d
      = copyFiles cache required_mods ns (setFile d n content) := by
  rw [copyFiles, hreq]
  dsimp only
  rw [hcache]
  dsimp only
  cases hl0 : lookupEntry d n with
  | none => rfl
  | some e =>
    cases e with
    | file c => rfl
    | dir q => exact absurd hl0 (hl q)

/-- Directories survive the copy loop whatever its outcome: a copy whose
destination name is a directory fails without touching it. -/
theorem copyFiles_dirs (cache required_mods : List (String × String)) :
    ∀ (ns : List String) (d : MdDir), nodupNames d →
    ∀ (m : String) (p : List String),
      ((m, FsEntry.dir p) ∈ (copyFiles cache required_mods ns d).1
        ↔ (m, FsEntry.dir p) ∈ d)
  | [], d, _, m, p => by simp [copyFiles]
  | n :: ns, d, hnd, m, p => by
    cases hreq : lookupAssoc required_mods n with
    | none => rw [copyFiles_cons_req_none cache required_mods n ns d hreq]
    | some cache_path =>
      cases hcache : lookupAssoc cache cache_path with
      | none =>
        rw [copyFiles_cons_cache_none cache required_mods n ns d cache_path
          hreq hcache]
      | some content =>
        cases hl : lookupEntry d n with
        | none =>
          rw [copyFiles_cons_eq cache required_mods n ns d cache_path content
            hreq hcache (fun q hq => by rw [hl] at hq; cases hq)]
          have ih := copyFiles_dirs cache required_mods ns (setFile d n content)
            (nodupNames_setFile d n content hnd) m p
          rw [ih, mem_setFile]
          simp only [Prod.mk.injEq, reduceCtorEq, and_false, or_false]
          constructor
          · exact fun h => h.1
          · intro h
            refine ⟨h, fun hmn => ?_⟩
            have hlm := nodup_lookup d hnd m (FsEntry.dir p) h
            have hmn' : m = n := hmn
            rw [hmn', hl] at hlm
            simp at hlm
        | some e =>
          cases e with
          | file c =>
            rw [copyFiles_cons_eq cache required_mods n ns d cache_path content
              hreq hcache (fun q hq => by rw [hl] at hq; simp at hq)]
            have ih := copyFiles_dirs cache required_mods ns
              (setFile d n content) (nodupNames_setFile d n content hnd) m p
            rw [ih, mem_setFile]
            simp only [Prod.mk.injEq, reduceCtorEq, and_false, or_false]
            constructor
            · exact fun h => h.1
            · intro h
              refine ⟨h, fun hmn => ?_⟩
              have hlm := nodup_lookup d hnd m (FsEntry.dir p) h
              have hmn' : m = n := hmn
              rw [hmn', hl] at hlm
              simp at hlm
          | dir q =>
            rw [copyFiles_cons_dest_dir cache required_mods n ns d cache_path
              content q hreq hcache hl]

theorem copyFiles_nodup (cache required_mods : List (String × String)) :
    ∀ (ns : List String) (d : MdDir), nodupNames d →
    nodupNames (copyFiles cache required_mods ns d).1
  | [], d, hnd => by simpa [copyFiles] using hnd
  | n :: ns, d, hnd => by
    cases hreq : lookupAssoc required_mods n with
    | none =>
      rw [copyFiles_cons_req_none cache required_mods n ns d hreq]
      exact hnd
    | some cache_path =>
      cases hcache : lookupAssoc cache cache_path with
      | none =>
        rw [copyFiles_cons_cache_none cache required_mods n ns d cache_path
          hreq hcache]
        exact hnd
      | some content =>
        cases hl : lookupEntry d n with
        | none =>
          rw [copyFiles_cons_eq cache required_mods n ns d cache_path content
            hreq hcache (fun q hq => by rw [hl] at hq; cases hq)]
          exact copyFiles_nodup cache required_mods ns (setFile d n content)
            (nodupNames_setFile d n content hnd)
        | some e =>
          cases e with
          | file c =>
            rw [copyFiles_cons_eq cache required_mods n ns d cache_path content
              hreq hcache (fun q hq => by rw [hl] at hq; simp at hq)]
            exact copyFiles_nodup cache required_mods ns (setFile d n content)
              (nodupNames_setFile d n content hnd)
          | dir q =>
            rw [copyFiles_cons_dest_dir cache required_mods n ns d cache_path
              content q hreq hcache hl]
            exact hnd

/-- After a successful copy pass the files are the previous files plus the
copy list. -/
theorem copyFiles_ok_existing (cache required_mods : List (String × String)) :
    ∀ (ns : List String) (d d' : MdDir),
    copyFiles cache required_mods ns d = (d', none) →
    ∀ m, m ∈ existingFilenames d' ↔ (m ∈ existingFilenames d ∨ m ∈ ns)
  | [], d, d', h, m => by
    rw [copyFiles] at h
    obtain ⟨rfl, -⟩ := Prod.mk.injEq d none d' none ▸ h
    simp
  | n :: ns, d, d', h, m => by
    cases hreq : lookupAssoc required_mods n with
    | none =>
      rw [copyFiles_cons_req_none cache required_mods n ns d hreq] at h
      simp at h
    | some cache_path =>
      cases hcache : lookupAssoc cache cache_path with
      | none =>
        rw [copyFiles_cons_cache_none cache required_mods n ns d cache_path
          hreq hcache] at h
        simp at h
      | some content =>
        have step : copyFiles cache required_mods ns (setFile d n content)
            = (d', none) →
            (m ∈ existingFilenames d'
              ↔ (m ∈ existingFilenames d ∨ m ∈ n :: ns)) := by
          intro hcopy
          have ih := copyFiles_ok_existing cache required_mods ns
            (setFile d n content) d' hcopy m
          rw [ih, existing_setFile]
          simp only [List.mem_cons]
          tauto
        cases hl : lookupEntry d n with
        | none =>
          rw [copyFiles_cons_eq cache required_mods n ns d cache_path content
            hreq hcache (fun q hq => by rw [hl] at hq; cases hq)] at h
          exact step h
        | some e =>
          cases e with
          | file c =>
            rw [copyFiles_cons_eq cache required_mods n ns d cache_path content
              hreq hcache (fun q hq => by rw [hl] at hq; simp at hq)] at h
            exact step h
          | dir q =>
            rw [copyFiles_cons_dest_dir cache required_mods n ns d cache_path
              content q hreq hcache hl] at h
            simp at h

/-- A successful copy pass leaves every name outside the copy list
untouched. -/
theorem copyFiles_ok_lookup (cache required_mods : List (String × String)) :
    ∀ (ns : List String) (d d' : MdDir),
    copyFiles cache required_mods ns d = (d', none) →
    ∀ m, m ∉ ns → lookupEntry d' m = lookupEntry d m
  | [], d, d', h, m, _ => by
    rw [copyFiles] at h
    obtain ⟨rfl, -⟩ := Prod.mk.injEq d none d' none ▸ h
    rfl
  | n :: ns, d, d', h, m, hm => by
    cases hreq : lookupAssoc required_mods n with
    | none =>
      rw [copyFiles_cons_req_none cache required_mods n ns d hreq] at h
      simp at h
    | some cache_path =>
      cases hcache : lookupAssoc cache cache_path with
      | none =>
        rw [copyFiles_cons_cache_none cache required_mods n ns d cache_path
          hreq hcache] at h
        simp at h
      | some content =>
        have hmn : m ≠ n := fun hc => hm (hc ▸ List.mem_cons_self n ns)
        have hm' : m ∉ ns := fun hc => hm (List.mem_cons_of_mem n hc)
        have step : copyFiles cache required_mods ns (setFile d n content)
            = (d', none) → lookupEntry d' m = lookupEntry d m := by
          intro hcopy
          have ih := copyFiles_ok_lookup cache required_mods ns
            (setFile d n content) d' hcopy m hm'
          rw [ih, lookupEntry_setFile_ne d n content m hmn]
        cases hl : lookupEntry d n with
        | none =>
          rw [copyFiles_cons_eq cache required_mods n ns d cache_path content
            hreq hcache (fun q hq => by rw [hl] at hq; cases hq)] at h
          exact step h
        | some e =>
          cases e with
          | file c =>
            rw [copyFiles_cons_eq cache required_mods n ns d cache_path content
              hreq hcache (fun q hq => by rw [hl] at hq; simp at hq)] at h
            exact step h
          | dir q =>
            rw [copyFiles_cons_dest_dir cache required_mods n ns d cache_path
              content q hreq hcache hl] at h
            simp at h

theorem syncPlan_mem (target_mods : List TargetMod) (d : MdDir) (n : String) :
    (n ∈ (syncPlan target_mods d).1
      ↔ (n ∈ existingFilenames d ∧ n ∉ requiredFilenames target_mods))
    ∧ (n ∈ (syncPlan target_mods d).2
      ↔ (n ∈ requiredFilenames target_mods ∧ n ∉ existingFilenames d)) := by
  unfold syncPlan
  constructor <;> simp [List.mem_filter]

/-! ## C1 — reconciliation convergence -/

/-- C1: after a successful `sync_mods_to_profile` run, the set of regular
filenames of the target directory is exactly the required key set; files
that were both present and required are untouched; and a second run with the
same required set plans zero removals and zero copies and leaves the
directory unchanged. -/
theorem sync_reconciliation (target_mods : List TargetMod)
    (cache : List (String × String)) (d d' : MdDir) (hnd : nodupNames d)
    (h : syncModsToProfile target_mods cache d = (d', none)) :
    (∀ n, n ∈ existingFilenames d' ↔ n ∈ requiredFilenames target_mods)
    ∧ (∀ n, n ∈ existingFilenames d → n ∈ requiredFilenames target_mods →
        lookupEntry d' n = lookupEntry d n)
    ∧ syncPlan target_mods d' = ([], [])
    ∧ syncModsToProfile target_mods cache d' = (d', none) := by
  simp only [syncModsToProfile] at h
  rcases hrem : removeFiles (syncPlan target_mods d).1 d with ⟨d1, r⟩
  rw [hrem] at h
  cases r with
  | some e => simp at h
  | none =>
    dsimp only at h
    have hnd1 : nodupNames d1 := by
      have := removeFiles_nodup (syncPlan target_mods d).1 d hnd
      rw [hrem] at this
      exact this
    have hex1 := removeFiles_ok_existing (syncPlan target_mods d).1 d d1 hrem
    have hex2 := copyFiles_ok_existing cache (buildRequiredMap target_mods)
      (syncPlan target_mods d).2 d1 d' h
    have hmain : ∀ n, n ∈ existingFilenames d'
        ↔ n ∈ requiredFilenames target_mods := by
      intro n
      rw [hex2 n, hex1 n, (syncPlan_mem target_mods d n).1,
        (syncPlan_mem target_mods d n).2]
      tauto
    have huntouched : ∀ n, n ∈ existingFilenames d →
        n ∈ requiredFilenames target_mods →
        lookupEntry d' n = lookupEntry d n := by
      intro n hex hreq
      have hnotrem : n ∉ (syncPlan target_mods d).1 := fun hc =>
        ((syncPlan_mem target_mods d n).1.mp hc).2 hreq
      have hnotadd : n ∉ (syncPlan target_mods d).2 := fun hc =>
        ((syncPlan_mem target_mods d n).2.mp hc).2 hex
      rw [copyFiles_ok_lookup cache (buildRequiredMap target_mods)
        (syncPlan target_mods d).2 d1 d' h n hnotadd,
        removeFiles_ok_lookup (syncPlan target_mods d).1 d d1 hrem n hnotrem]
    have hplan : syncPlan target_mods d' = ([], []) := by
      have e1 : (existingFilenames d').filter
          (fun n => decide (n ∉ requiredFilenames target_mods)) = [] := by
        apply List.filter_eq_nil_iff.mpr
        intro x hx
        simp only [decide_eq_true_eq, not_not]
        exact (hmain x).mp hx
      have e2 : (requiredFilenames target_mods).filter
          (fun n => decide (n ∉ existingFilenames d')) = [] := by
        apply List.filter_eq_nil_iff.mpr
        intro x hx
        simp only [decide_eq_true_eq, not_not]
        exact (hmain x).mpr hx
      unfold syncPlan
      dsimp only
      rw [e1, e2]
    have hrun2 : syncModsToProfile target_mods cache d' = (d', none) := by
      simp only [syncModsToProfile, hplan]
      rfl
    exact ⟨hmain, huntouched, hplan, hrun2⟩

theorem sync_reconciliation_witness :
    (nodupNames syncDirEx
      ∧ syncModsToProfile syncTargetsEx syncCacheEx syncDirEx
          = (syncDirEx', none))
    ∧ ((∀ n, n ∈ existingFilenames syncDirEx'
          ↔ n ∈ requiredFilenames syncTargetsEx)
      ∧ (∀ n, n ∈ existingFilenames syncDirEx →
          n ∈ requiredFilenames syncTargetsEx →
          lookupEntry syncDirEx' n = lookupEntry syncDirEx n)
      ∧ syncPlan syncTargetsEx syncDirEx' = ([], [])
      ∧ syncModsToProfile syncTargetsEx syncCacheEx syncDirEx'
          = (syncDirEx', none)) :=
  ⟨⟨by decide, by decide⟩,
    sync_reconciliation syncTargetsEx syncCacheEx syncDirEx syncDirEx'
      (by decide) (by decide)⟩

/-! ## C10 — directories are never counted nor touched -/

/-- C10: the directory listing records only regular files (no directory name
is ever in `existing_filenames`), and every subdirectory entry of the mods
directory — with its whole payload — survives any `sync_mods_to_profile`
call unchanged, successful or not. -/
theorem sync_preserves_directories (target_mods : List TargetMod)
    (cache : List (String × String)) (d : MdDir) (hnd : nodupNames d) :
    (∀ n p, (n, FsEntry.dir p) ∈ d → n ∉ existingFilenames d)
    ∧ (∀ n p, ((n, FsEntry.dir p)
          ∈ (syncModsToProfile target_mods cache d).1
        ↔ (n, FsEntry.dir p) ∈ d)) := by
  constructor
  · intro n p hdir hex
    rcases (mem_existingFilenames d n).mp hex with ⟨c, hfile⟩
    have h1 := nodup_lookup d hnd n (FsEntry.dir p) hdir
    have h2 := nodup_lookup d hnd n (FsEntry.file c) hfile
    rw [h1] at h2
    simp at h2
  · intro n p
    simp only [syncModsToProfile]
    rcases hrem : removeFiles (syncPlan target_mods d).1 d with ⟨d1, r⟩
    have hd1 : (n, FsEntry.dir p) ∈ d1 ↔ (n, FsEntry.dir p) ∈ d := by
      have := removeFiles_dirs (syncPlan target_mods d).1 d hnd n p
      rw [hrem] at this
      exact this
    have hnd1 : nodupNames d1 := by
      have := removeFiles_nodup (syncPlan target_mods d).1 d hnd
      rw [hrem] at this
      exact this
    cases r with
    | some e =>
      dsimp only
      exact hd1
    | none =>
      dsimp only
      rw [copyFiles_dirs cache (buildRequiredMap target_mods)
        (syncPlan target_mods d).2 d1 hnd1 n p]
      exact hd1

theorem sync_preserves_directories_witness :
    nodupNames syncDirWithSubEx
      ∧ ((∀ n p, (n, FsEntry.dir p) ∈ syncDirWithSubEx →
            n ∉ existingFilenames syncDirWithSubEx)
        ∧ (∀ n p, ((n, FsEntry.dir p)
              ∈ (syncModsToProfile syncTargetsEx syncCacheEx
                  syncDirWithSubEx).1
            ↔ (n, FsEntry.dir p) ∈ syncDirWithSubEx))) :=
  ⟨by decide,
    sync_preserves_directories syncTargetsEx syncCacheEx syncDirWithSubEx
      (by decide)⟩

end GegLauncher
